import Mathlib

/-!
Verification of the procedural city-layout and driving core of the portfolio
repository (ProjectGallery3D.jsx).  JavaScript numbers are modelled as real
numbers; where IEEE non-finiteness (NaN / Infinity) is the point of a claim,
a coordinate is modelled as an Option over the reals, with none standing for
a non-finite value.  Randomness (Math.random) is modelled as an explicit
stream of draws, a function from a draw index to a real number in [0, 1).
-/

namespace Portfolio

open Classical

/-- Math.hypot on two components: the Euclidean norm sqrt (dx^2 + dz^2). -/
noncomputable def hypot (dx dz : ℝ) : ℝ := Real.sqrt (dx ^ 2 + dz ^ 2)

/-- Snapshot of the keyboard state read by CarControls each frame
(`keys.current` in the source). -/
structure Keys where
  w : Bool
  a : Bool
  s : Bool
  d : Bool
  arrowUp : Bool
  arrowLeft : Bool
  arrowDown : Bool
  arrowRight : Bool

/-- The vehicle state owned by CarControls: position (x, y, z), heading
`yaw` (rotation.y, radians) and the signed scalar `velocity`. -/
structure CarState where
  x : ℝ
  y : ℝ
  z : ℝ
  yaw : ℝ
  velocity : ℝ

/-- The car collision radius used by the collision test (`carRadius`). -/
noncomputable def carRadius : ℝ := 1.0

/-- The obstacle collision radius used by the collision test
(`obstacleRadius`). -/
noncomputable def obstacleRadius : ℝ := 2.0

/-- Longitudinal velocity update of the per-frame CarControls callback:
forward keys accelerate toward the 20 cap at rate 10/s, back keys brake
toward the -10 cap, otherwise the velocity is damped by the factor 0.98. -/
noncomputable def newVelocity (keys : Keys) (dt v : ℝ) : ℝ :=
  if keys.w || keys.arrowUp then min 20 (v + dt * 10)
  else if keys.s || keys.arrowDown then max (-10) (v - dt * 10)
  else v * 0.98

/-- Steering update of the per-frame CarControls callback: only active when
the freshly updated speed exceeds 0.5 in absolute value; left and right keys
turn by dt * 1.2 radians each. -/
noncomputable def newYaw (keys : Keys) (dt v yaw : ℝ) : ℝ :=
  if 0.5 < |v| then
    yaw + (if keys.a || keys.arrowLeft then dt * 1.2 else 0)
        - (if keys.d || keys.arrowRight then dt * 1.2 else 0)
  else yaw

/-- The proposed planar position of the frame: the current position advanced
along the forward direction of the updated yaw by velocity * dt.  The source
sets rotation.y before reading the quaternion, so the forward vector
(-sin yaw, 0, -cos yaw) uses the updated yaw. -/
noncomputable def proposedPos (keys : Keys) (dt : ℝ) (st : CarState) : ℝ × ℝ :=
  let v1 := newVelocity keys dt st.velocity
  let y1 := newYaw keys dt v1 st.yaw
  (st.x + (-Real.sin y1) * (v1 * dt), st.z + (-Real.cos y1) * (v1 * dt))

/-- The collision test of CarControls on a proposed planar point: within
carRadius + obstacleRadius of some obstacle centre, or outside the square
[-planeRadius + carRadius, planeRadius - carRadius] on either axis. -/
def collides (obstacles : List (ℝ × ℝ)) (planeR : ℝ) (p : ℝ × ℝ) : Prop :=
  (∃ o ∈ obstacles, hypot (p.1 - o.1) (p.2 - o.2) < carRadius + obstacleRadius) ∨
  p.1 < -planeR + carRadius ∨ p.1 > planeR - carRadius ∨
  p.2 < -planeR + carRadius ∨ p.2 > planeR - carRadius

/-- One frame of the CarControls update: velocity, then steering (the yaw is
written to the object before the collision test), then the collision test;
on a rejected motion the position is kept and the velocity zeroed, otherwise
the proposed position and the updated velocity are committed. -/
noncomputable def carStep (obstacles : List (ℝ × ℝ)) (planeR : ℝ) (keys : Keys)
    (dt : ℝ) (st : CarState) : CarState :=
  let v1 := newVelocity keys dt st.velocity
  let y1 := newYaw keys dt v1 st.yaw
  let p := proposedPos keys dt st
  if collides obstacles planeR p then
    { st with yaw := y1, velocity := 0 }
  else
    { x := p.1, y := st.y, z := p.2, yaw := y1, velocity := v1 }

/-- One repository record, as grouped by language by the fetch hook. -/
structure Repo where
  name : String
  description : Option String
  html_url : String
  stargazers_count : ℕ

/-- One city: a language group with its jittered centre, cluster radius,
repos and the building positions produced for them. -/
structure City where
  language : String
  centerX : ℝ
  centerZ : ℝ
  clusterRadius : ℝ
  repos : List Repo
  buildingPositions : List (ℝ × ℝ)

/-- The ground half-extent (`planeRadius` in the source). -/
noncomputable def planeRadius : ℝ := 80

/-- The eight predefined city anchor points (`cornerPositions`). -/
noncomputable def cornerPositions : List (ℝ × ℝ) :=
  [(-planeRadius + 10, -planeRadius + 10),
   (planeRadius - 10, -planeRadius + 10),
   (-planeRadius + 10, planeRadius - 10),
   (planeRadius - 10, planeRadius - 10),
   (-50, 0), (50, 0), (0, -50), (0, 50)]

/-- The rejection-sampling loop of generateClusterPositions.  `fuel` counts
the remaining attempts (the source allows count * 50 in total), `idx` is the
position in the random stream (each attempt draws an angle and a radius
fraction), `acc` the accepted points in order.  Returns the accepted points
together with the stream position after the loop, so callers that keep
drawing from the same stream can be threaded faithfully. -/
noncomputable def clusterAux (rand : ℕ → ℝ) (count : ℕ) (cx cz radius minSep : ℝ) :
    ℕ → ℕ → List (ℝ × ℝ) → List (ℝ × ℝ) × ℕ
  | 0, idx, acc => (acc, idx)
  | fuel + 1, idx, acc =>
    if count ≤ acc.length then (acc, idx)
    else
      let angle := rand idx * Real.pi * 2
      let r := Real.sqrt (rand (idx + 1)) * radius
      let x := cx + Real.cos angle * r
      let z := cz + Real.sin angle * r
      if ∃ p ∈ acc, hypot (p.1 - x) (p.2 - z) < minSep then
        clusterAux rand count cx cz radius minSep fuel (idx + 2) acc
      else
        clusterAux rand count cx cz radius minSep fuel (idx + 2) (acc ++ [(x, z)])

/-- generateClusterPositions: up to `count` points sampled uniformly in the
disk of the given radius around (centerX, centerZ), each accepted only when
at least minSep away from all previously accepted points, giving up after
count * 50 attempts. -/
noncomputable def generateClusterPositions (rand : ℕ → ℝ) (count : ℕ)
    (centerX centerZ radius minSep : ℝ) : List (ℝ × ℝ) :=
  (clusterAux rand count centerX centerZ radius minSep (count * 50) 0 []).1

/-- The cityData builder: one City per language group, cycling through the
eight anchors, jittering the centre by ±5 on each axis, drawing a cluster
radius in [10, 15) and invoking the cluster generator with the group's repo
count and minimum separation 5.  The random stream position is threaded
through the groups in source call order (jitter x, jitter z, radius, then
two draws per placement attempt). -/
noncomputable def cityDataAux (rand : ℕ → ℝ) :
    List (String × List Repo) → ℕ → ℕ → List City
  | [], _, _ => []
  | (lang, repos) :: rest, i, idx =>
    let corner := cornerPositions.getD (i % cornerPositions.length) (0, 0)
    let cx := corner.1 + (rand idx - 0.5) * 10
    let cz := corner.2 + (rand (idx + 1) - 0.5) * 10
    let cr := 10 + rand (idx + 2) * 5
    let res := clusterAux rand repos.length cx cz cr 5 (repos.length * 50) (idx + 3) []
    { language := lang, centerX := cx, centerZ := cz, clusterRadius := cr,
      repos := repos, buildingPositions := res.1 } :: cityDataAux rand rest (i + 1) res.2

/-- cityData on an ordered list of language groups. -/
noncomputable def cityData (rand : ℕ → ℝ) (groups : List (String × List Repo)) :
    List City :=
  cityDataAux rand groups 0 0

/-- JS-number addition on Option ℝ: none models a non-finite value
(NaN or ±Infinity), which propagates. -/
noncomputable def oadd (a b : Option ℝ) : Option ℝ := a.bind fun u => b.map fun v => u + v

/-- JS-number subtraction on Option ℝ; non-finite propagates. -/
noncomputable def osub (a b : Option ℝ) : Option ℝ := a.bind fun u => b.map fun v => u - v

/-- JS-number multiplication on Option ℝ; non-finite propagates. -/
noncomputable def omul (a b : Option ℝ) : Option ℝ := a.bind fun u => b.map fun v => u * v

/-- JS-number division on Option ℝ: division by zero produces a non-finite
value (0/0 is NaN, x/0 is ±Infinity), and non-finite operands propagate. -/
noncomputable def odiv (a b : Option ℝ) : Option ℝ :=
  a.bind fun u => b.bind fun v => if v = 0 then none else some (u / v)

/-- The body of the road loop for one adjacent pair (curr, next): unit
vector from curr's centre to next's centre, segment start advanced from
curr's centre by clusterRadius + 2, segment end retreated from next's
centre by clusterRadius + 2.  Coordinates are JS numbers: when the two
centres coincide the division 0/0 is non-finite (NaN). -/
noncomputable def mkSegment (curr next : City) :
    Option ℝ × Option ℝ × Option ℝ × Option ℝ :=
  let dx := next.centerX - curr.centerX
  let dz := next.centerZ - curr.centerZ
  let dist := hypot dx dz
  let ux := odiv (some dx) (some dist)
  let uz := odiv (some dz) (some dist)
  let x1 := oadd (some curr.centerX) (omul ux (some (curr.clusterRadius + 2)))
  let z1 := oadd (some curr.centerZ) (omul uz (some (curr.clusterRadius + 2)))
  let x2 := osub (some next.centerX) (omul ux (some (next.clusterRadius + 2)))
  let z2 := osub (some next.centerZ) (omul uz (some (next.clusterRadius + 2)))
  (x1, z1, x2, z2)

/-- roadSegments: for a nonempty city list, one segment per index i pairing
city i with city (i+1) mod n (the zip with the list rotated left by one);
the source only special-cases the empty list. -/
noncomputable def roadSegments (cities : List City) :
    List (Option ℝ × Option ℝ × Option ℝ × Option ℝ) :=
  if cities.isEmpty then []
  else (cities.zip (cities.rotate 1)).map fun p => mkSegment p.1 p.2

/-- The tree points derived for one city: one tree per building position, at
a random angle and a radius in [0.85, 1.15] * clusterRadius from the city
centre; each tree draws an angle and a radius fraction from the stream. -/
noncomputable def treePoints (rand : ℕ → ℝ) (idx : ℕ) (city : City) :
    List (ℝ × ℝ) :=
  (List.range city.buildingPositions.length).map fun k =>
    let angle := rand (idx + 2 * k) * Real.pi * 2
    let r := city.clusterRadius * (0.85 + rand (idx + 2 * k + 1) * 0.3)
    (city.centerX + Real.cos angle * r, city.centerZ + Real.sin angle * r)

/-- The obstacle accumulation over the city list: per city, every building
position followed by its derived tree points, the random stream threaded in
source order (two draws per tree). -/
noncomputable def obstaclesAux (rand : ℕ → ℝ) : List City → ℕ → List (ℝ × ℝ)
  | [], _ => []
  | c :: rest, idx =>
    c.buildingPositions ++ treePoints rand idx c ++
      obstaclesAux rand rest (idx + 2 * c.buildingPositions.length)

/-- obstacleCenters: the flat list of collision obstacle points, buildings
and trees, across all cities. -/
noncomputable def obstacleCenters (rand : ℕ → ℝ) (cities : List City) :
    List (ℝ × ℝ) :=
  obstaclesAux rand cities 0

/-! Concrete inputs shared by several witnesses and counterexamples. -/

/-- The degenerate random stream that always draws 0 (a value Math.random
may return). -/
def rand0 : ℕ → ℝ := fun _ => 0

/-- Keyboard snapshot: only the forward key (w) held. -/
def kForward : Keys := ⟨true, false, false, false, false, false, false, false⟩

/-- Keyboard snapshot: all keys released. -/
def kNone : Keys := ⟨false, false, false, false, false, false, false, false⟩

/-- Keyboard snapshot: only the left-steer key (a) held. -/
def kLeftOnly : Keys := ⟨false, true, false, false, false, false, false, false⟩

/-- A coasting car at the origin, facing -z with speed 10. -/
noncomputable def coastState : CarState := ⟨0, 0.5, 0, 0, 1⟩

/-- A car far outside the southern bound, facing -z with speed 1. -/
noncomputable def edgeState : CarState := ⟨0, 0.5, -100, 0, 1⟩

/-! ## Drive Controller claims -/

/-- Claim C1: on each frame, if the proposed position is within
carRadius + obstacleRadius = 3 of an obstacle or exits the square bounds on
either axis, the update keeps the position and zeroes the velocity;
otherwise it commits the proposed position. -/
theorem carStep_collision_spec (obstacles : List (ℝ × ℝ)) (planeR : ℝ)
    (keys : Keys) (dt : ℝ) (st : CarState) :
    (collides obstacles planeR (proposedPos keys dt st) →
      (carStep obstacles planeR keys dt st).x = st.x ∧
      (carStep obstacles planeR keys dt st).y = st.y ∧
      (carStep obstacles planeR keys dt st).z = st.z ∧
      (carStep obstacles planeR keys dt st).velocity = 0) ∧
    (¬ collides obstacles planeR (proposedPos keys dt st) →
      (carStep obstacles planeR keys dt st).x = (proposedPos keys dt st).1 ∧
      (carStep obstacles planeR keys dt st).z = (proposedPos keys dt st).2) := by
  constructor <;> intro h <;> simp [carStep, h]

theorem coastState_velocity : newVelocity kNone 1 coastState.velocity = 0.98 := by
  norm_num [newVelocity, kNone, coastState]

theorem newYaw_kNone (dt v yaw : ℝ) : newYaw kNone dt v yaw = yaw := by
  simp [newYaw, kNone]

theorem coastState_proposed : proposedPos kNone 1 coastState = (0, -0.98) := by
  simp only [proposedPos, coastState_velocity, newYaw_kNone]
  norm_num [coastState]

/-- Witness for C1: with all keys released and an obstacle placed exactly at
the proposed position, the update keeps the position and zeroes velocity. -/
theorem carStep_collision_spec_witness :
    collides [((0 : ℝ), (-0.98 : ℝ))] 80 (proposedPos kNone 1 coastState) ∧
    ((carStep [((0 : ℝ), (-0.98 : ℝ))] 80 kNone 1 coastState).x = coastState.x ∧
     (carStep [((0 : ℝ), (-0.98 : ℝ))] 80 kNone 1 coastState).y = coastState.y ∧
     (carStep [((0 : ℝ), (-0.98 : ℝ))] 80 kNone 1 coastState).z = coastState.z ∧
     (carStep [((0 : ℝ), (-0.98 : ℝ))] 80 kNone 1 coastState).velocity = 0) := by
  have hcol : collides [((0 : ℝ), (-0.98 : ℝ))] 80 (proposedPos kNone 1 coastState) := by
    refine Or.inl ⟨((0 : ℝ), (-0.98 : ℝ)), by simp, ?_⟩
    rw [coastState_proposed]
    norm_num [hypot, carRadius, obstacleRadius]
  exact ⟨hcol, (carStep_collision_spec _ _ _ _ _).1 hcol⟩

/-- Amended C8: the yaw is committed unconditionally each frame — whatever
the collision test decides, the vehicle yaw after the update is the steered
yaw (the source writes rotation.y before the collision test). -/
theorem carStep_yaw_unconditional (obstacles : List (ℝ × ℝ)) (planeR : ℝ)
    (keys : Keys) (dt : ℝ) (st : CarState) :
    (carStep obstacles planeR keys dt st).yaw =
      newYaw keys dt (newVelocity keys dt st.velocity) st.yaw := by
  by_cases h : collides obstacles planeR (proposedPos keys dt st) <;>
    simp [carStep, h]

theorem edgeState_velocity : newVelocity kLeftOnly 0.1 edgeState.velocity = 0.98 := by
  norm_num [newVelocity, kLeftOnly, edgeState]

theorem edgeState_yaw : newYaw kLeftOnly 0.1 0.98 edgeState.yaw = 0.12 := by
  have habs : (0.5 : ℝ) < |(0.98 : ℝ)| := by
    rw [abs_of_pos] <;> norm_num
  unfold newYaw
  rw [if_pos habs]
  norm_num [kLeftOnly, edgeState]

/-- Counterexample to C8: a frame whose motion is rejected by the boundary
test (position kept, velocity zeroed) still changes the vehicle yaw. -/
theorem carStep_yaw_counterexample :
    (carStep [] 80 kLeftOnly 0.1 edgeState).x = edgeState.x ∧
    (carStep [] 80 kLeftOnly 0.1 edgeState).z = edgeState.z ∧
    (carStep [] 80 kLeftOnly 0.1 edgeState).velocity = 0 ∧
    (carStep [] 80 kLeftOnly 0.1 edgeState).yaw ≠ edgeState.yaw := by
  have hz : (proposedPos kLeftOnly 0.1 edgeState).2 =
      -100 + -Real.cos 0.12 * (0.98 * 0.1) := by
    simp only [proposedPos, edgeState_velocity, edgeState_yaw]
    norm_num [edgeState]
  have hcol : collides [] 80 (proposedPos kLeftOnly 0.1 edgeState) := by
    simp only [collides]
    refine Or.inr (Or.inr (Or.inr (Or.inl ?_)))
    rw [hz]
    norm_num [carRadius]
    nlinarith [Real.neg_one_le_cos (0.12 : ℝ)]
  refine ⟨?_, ?_, ?_, ?_⟩ <;> simp [carStep, hcol]
  rw [edgeState_velocity, edgeState_yaw]
  norm_num [edgeState]

/-- Claim C7: with forward held at dt = 0.1 each step maps v to
min 20 (v + 1), so from 0 the speed after n steps is min 20 n, climbing
monotonically to the cap; with all keys released each update multiplies the
velocity by 0.98, which shrinks a positive velocity without changing its
sign. -/
theorem newVelocity_accel_decay_spec :
    (∀ v : ℝ, newVelocity kForward 0.1 v = min 20 (v + 1)) ∧
    (∀ n : ℕ, (fun v => newVelocity kForward 0.1 v)^[n] 0 = min 20 (n : ℝ)) ∧
    (∀ dt v : ℝ, newVelocity kNone dt v = v * 0.98) ∧
    (∀ dt v : ℝ, 0 < v → newVelocity kNone dt v < v ∧ 0 < newVelocity kNone dt v) := by
  have hstep : ∀ v : ℝ, newVelocity kForward 0.1 v = min 20 (v + 1) := by
    intro v; norm_num [newVelocity, kForward]
  have hdecay : ∀ dt v : ℝ, newVelocity kNone dt v = v * 0.98 := by
    intro dt v; simp [newVelocity, kNone]
  refine ⟨hstep, ?_, hdecay, ?_⟩
  · intro n
    induction n with
    | zero => simp
    | succ n ih =>
      rw [Function.iterate_succ_apply', ih, hstep]
      push_cast
      rcases le_or_lt n 19 with h | h
      · have h1 : (n : ℝ) ≤ 20 := by
          have : (n : ℝ) ≤ 19 := by exact_mod_cast h
          linarith
        rw [min_eq_right h1]
      · have h1 : (20 : ℝ) ≤ (n : ℝ) := by exact_mod_cast h
        rw [min_eq_left h1, min_eq_left (by norm_num : (20 : ℝ) ≤ 20 + 1),
          min_eq_left (by linarith : (20 : ℝ) ≤ (n : ℝ) + 1)]
  · intro dt v hv
    rw [hdecay]
    constructor <;> nlinarith

/-- Witness for C7: decaying from velocity 1 stays positive and shrinks. -/
theorem newVelocity_accel_decay_spec_witness :
    (0 : ℝ) < 1 ∧ (newVelocity kNone 0.1 1 < 1 ∧ 0 < newVelocity kNone 0.1 1) :=
  ⟨by norm_num, newVelocity_accel_decay_spec.2.2.2 0.1 1 (by norm_num)⟩

/-- Claim C10: the per-frame update preserves the velocity range [-10, 20]
for every keyboard state, nonnegative dt, obstacle list and position. -/
theorem carStep_velocity_range (obstacles : List (ℝ × ℝ)) (planeR : ℝ)
    (keys : Keys) (dt : ℝ) (st : CarState) (hdt : 0 ≤ dt)
    (hlo : -10 ≤ st.velocity) (hhi : st.velocity ≤ 20) :
    -10 ≤ (carStep obstacles planeR keys dt st).velocity ∧
    (carStep obstacles planeR keys dt st).velocity ≤ 20 := by
  have hv : -10 ≤ newVelocity keys dt st.velocity ∧
      newVelocity keys dt st.velocity ≤ 20 := by
    unfold newVelocity
    split_ifs
    · exact ⟨le_min (by norm_num) (by linarith), min_le_left _ _⟩
    · exact ⟨le_max_left _ _, max_le (by norm_num) (by linarith)⟩
    · constructor <;> nlinarith
  by_cases h : collides obstacles planeR (proposedPos keys dt st)
  · simp [carStep, h]
  · simp only [carStep, h, if_false]
    exact hv

/-- Witness for C10: one frame from the coasting state keeps the velocity
inside [-10, 20]. -/
theorem carStep_velocity_range_witness :
    (0 : ℝ) ≤ 0 ∧ (-10 : ℝ) ≤ coastState.velocity ∧ coastState.velocity ≤ 20 ∧
    (-10 ≤ (carStep [] 80 kNone 0 coastState).velocity ∧
      (carStep [] 80 kNone 0 coastState).velocity ≤ 20) :=
  ⟨le_refl 0, by norm_num [coastState], by norm_num [coastState],
    carStep_velocity_range [] 80 kNone 0 coastState (le_refl 0)
      (by norm_num [coastState]) (by norm_num [coastState])⟩

/-! ## Cluster Layout Generator claims -/

theorem clusterAux_length_le (rand : ℕ → ℝ) (count : ℕ) (cx cz radius minSep : ℝ) :
    ∀ fuel idx acc, acc.length ≤ count →
      ((clusterAux rand count cx cz radius minSep fuel idx acc).1).length ≤ count := by
  intro fuel
  induction fuel with
  | zero => intro idx acc h; simpa [clusterAux] using h
  | succ n ih =>
    intro idx acc h
    simp only [clusterAux]
    split_ifs with h1 h2
    · simpa using h
    · exact ih _ _ h
    · apply ih
      have hlt : acc.length < count := lt_of_not_le h1
      simpa [List.length_append] using hlt

theorem hypot_cos_sin (θ r : ℝ) (hr : 0 ≤ r) :
    hypot (Real.cos θ * r) (Real.sin θ * r) = r := by
  unfold hypot
  have hsq : (Real.cos θ * r) ^ 2 + (Real.sin θ * r) ^ 2 = r ^ 2 := by
    have h := Real.sin_sq_add_cos_sq θ
    nlinarith [h]
  rw [hsq, Real.sqrt_sq hr]

theorem clusterAux_mem_disk (rand : ℕ → ℝ) (count : ℕ) (cx cz radius minSep : ℝ)
    (hrad : 0 ≤ radius) (hrand : ∀ n, 0 ≤ rand n ∧ rand n ≤ 1) :
    ∀ fuel idx acc, (∀ p ∈ acc, hypot (p.1 - cx) (p.2 - cz) ≤ radius) →
      ∀ p ∈ (clusterAux rand count cx cz radius minSep fuel idx acc).1,
        hypot (p.1 - cx) (p.2 - cz) ≤ radius := by
  intro fuel
  induction fuel with
  | zero => intro idx acc h; simpa [clusterAux] using h
  | succ n ih =>
    intro idx acc h
    simp only [clusterAux]
    split_ifs with h1 h2
    · simpa using h
    · exact ih _ _ h
    · apply ih
      intro p hp
      rcases List.mem_append.mp hp with hp | hp
      · exact h p hp
      · have hr : 0 ≤ Real.sqrt (rand (idx + 1)) * radius :=
          mul_nonneg (Real.sqrt_nonneg _) hrad
        have hrle : Real.sqrt (rand (idx + 1)) * radius ≤ radius := by
          have h1le : Real.sqrt (rand (idx + 1)) ≤ 1 :=
            Real.sqrt_le_one.mpr (hrand (idx + 1)).2
          nlinarith
        rw [List.mem_singleton.mp hp]
        simp only [add_sub_cancel_left]
        rw [hypot_cos_sin _ _ hr]
        exact hrle

theorem clusterAux_pairwise (rand : ℕ → ℝ) (count : ℕ) (cx cz radius minSep : ℝ) :
    ∀ fuel idx acc,
      acc.Pairwise (fun p q => minSep ≤ hypot (p.1 - q.1) (p.2 - q.2)) →
      ((clusterAux rand count cx cz radius minSep fuel idx acc).1).Pairwise
        (fun p q => minSep ≤ hypot (p.1 - q.1) (p.2 - q.2)) := by
  intro fuel
  induction fuel with
  | zero => intro idx acc h; simpa [clusterAux] using h
  | succ n ih =>
    intro idx acc h
    simp only [clusterAux]
    split_ifs with h1 h2
    · simpa using h
    · exact ih _ _ h
    · apply ih
      rw [List.pairwise_append]
      refine ⟨h, List.pairwise_singleton _ _, ?_⟩
      intro p hp q hq
      rw [List.mem_singleton.mp hq]
      push_neg at h2
      exact h2 p hp

/-- Claim C2: the cluster generator returns at most `count` points, all of
them within `radius` of the centre, pairwise at least minSep apart (given
that the random draws lie in [0, 1], as Math.random guarantees, and the
radius is nonnegative). -/
theorem generateClusterPositions_spec (rand : ℕ → ℝ) (count : ℕ)
    (cx cz radius minSep : ℝ) (hrad : 0 ≤ radius)
    (hrand : ∀ n, 0 ≤ rand n ∧ rand n ≤ 1) :
    (generateClusterPositions rand count cx cz radius minSep).length ≤ count ∧
    (∀ p ∈ generateClusterPositions rand count cx cz radius minSep,
      hypot (p.1 - cx) (p.2 - cz) ≤ radius) ∧
    (generateClusterPositions rand count cx cz radius minSep).Pairwise
      (fun p q => minSep ≤ hypot (p.1 - q.1) (p.2 - q.2)) := by
  unfold generateClusterPositions
  exact ⟨clusterAux_length_le rand count cx cz radius minSep _ _ _ (by simp),
    clusterAux_mem_disk rand count cx cz radius minSep hrad hrand _ _ _ (by simp),
    clusterAux_pairwise rand count cx cz radius minSep _ _ _ (by simp)⟩

/-- Witness for C2 at the constant-zero stream. -/
theorem generateClusterPositions_spec_witness :
    (0 : ℝ) ≤ 1 ∧ (∀ n, 0 ≤ rand0 n ∧ rand0 n ≤ 1) ∧
    ((generateClusterPositions rand0 1 0 0 1 5).length ≤ 1 ∧
     (∀ p ∈ generateClusterPositions rand0 1 0 0 1 5,
       hypot (p.1 - 0) (p.2 - 0) ≤ 1) ∧
     (generateClusterPositions rand0 1 0 0 1 5).Pairwise
       (fun p q => (5 : ℝ) ≤ hypot (p.1 - q.1) (p.2 - q.2))) :=
  ⟨by norm_num, fun n => by norm_num [rand0],
    generateClusterPositions_spec rand0 1 0 0 1 5 (by norm_num)
      (fun n => by norm_num [rand0])⟩

/-! ## City Builder claims -/

theorem clusterAux_rand0_stuck (count : ℕ) (cx cz radius minSep : ℝ)
    (hsep : 0 < minSep) (hcount : 2 ≤ count) :
    ∀ fuel idx, clusterAux rand0 count cx cz radius minSep fuel idx [(cx, cz)] =
      ([(cx, cz)], idx + 2 * fuel) := by
  intro fuel
  induction fuel with
  | zero => intro idx; simp [clusterAux]
  | succ n ih =>
    intro idx
    simp only [clusterAux, rand0, zero_mul, Real.sqrt_zero, Real.cos_zero,
      Real.sin_zero, mul_zero, one_mul, add_zero, List.length_singleton]
    rw [if_neg (by omega : ¬ count ≤ 1)]
    rw [if_pos ⟨(cx, cz), List.mem_singleton_self _, by
      simpa [hypot] using hsep⟩]
    rw [ih]
    refine congrArg _ ?_
    omega

theorem clusterAux_rand0_first (count : ℕ) (cx cz radius minSep : ℝ)
    (hcount : 1 ≤ count) (fuel idx : ℕ) :
    clusterAux rand0 count cx cz radius minSep (fuel + 1) idx [] =
      clusterAux rand0 count cx cz radius minSep fuel (idx + 2) [(cx, cz)] := by
  simp only [clusterAux, rand0, zero_mul, Real.sqrt_zero, Real.cos_zero,
    Real.sin_zero, mul_zero, one_mul, add_zero, List.length_nil]
  rw [if_neg (by omega : ¬ count ≤ 0)]
  rw [if_neg (by simp)]
  simp

/-- On the constant-zero stream every candidate is the centre itself, so the
generator accepts exactly one point (when two or more are requested and the
separation is positive) and burns the whole attempt budget. -/
theorem clusterAux_rand0_run (count : ℕ) (cx cz radius minSep : ℝ)
    (hsep : 0 < minSep) (hcount : 2 ≤ count) (idx : ℕ) :
    clusterAux rand0 count cx cz radius minSep (count * 50) idx [] =
      ([(cx, cz)], idx + 2 * (count * 50)) := by
  obtain ⟨m, hm⟩ : ∃ m, count * 50 = m + 1 := ⟨count * 50 - 1, by omega⟩
  rw [hm, clusterAux_rand0_first count cx cz radius minSep (by omega),
    clusterAux_rand0_stuck count cx cz radius minSep hsep hcount]
  refine congrArg _ ?_
  omega

theorem cityDataAux_length (rand : ℕ → ℝ) (groups : List (String × List Repo)) :
    ∀ i idx, (cityDataAux rand groups i idx).length = groups.length := by
  induction groups with
  | nil => intro i idx; simp [cityDataAux]
  | cons g rest ih =>
    intro i idx
    obtain ⟨lang, repos⟩ := g
    simp only [cityDataAux, List.length_cons, ih]

theorem cityDataAux_bp_le (rand : ℕ → ℝ) (groups : List (String × List Repo)) :
    ∀ i idx c, c ∈ cityDataAux rand groups i idx →
      c.buildingPositions.length ≤ c.repos.length := by
  induction groups with
  | nil => intro i idx c hc; simp [cityDataAux] at hc
  | cons g rest ih =>
    intro i idx c hc
    obtain ⟨lang, repos⟩ := g
    simp only [cityDataAux] at hc
    rcases List.mem_cons.mp hc with rfl | htail
    · exact clusterAux_length_le rand repos.length _ _ _ 5 _ _ _ (by simp)
    · exact ih _ _ c htail

/-- Amended C3: a City's building-position list is never longer than its
repo list, but (best-effort sampling) it can be shorter. -/
theorem cityData_buildingPositions_le (rand : ℕ → ℝ)
    (groups : List (String × List Repo)) :
    ∀ c ∈ cityData rand groups, c.buildingPositions.length ≤ c.repos.length := by
  intro c hc
  exact cityDataAux_bp_le rand groups 0 0 c hc

/-- Witness for the amended C3 on a one-group input. -/
theorem cityData_buildingPositions_le_witness :
    ∃ c ∈ cityData rand0 [("A", [])],
      c.buildingPositions.length ≤ c.repos.length := by
  have hne : cityData rand0 [("A", [])] ≠ [] := by
    unfold cityData cityDataAux
    simp
  obtain ⟨c, hc⟩ := List.exists_mem_of_ne_nil _ hne
  exact ⟨c, hc, cityData_buildingPositions_le rand0 _ c hc⟩

/-- A throwaway repository record used by concrete inputs. -/
def repoR : Repo := ⟨"r", none, "u", 0⟩

/-- Counterexample to C3: with the constant-zero random stream (a run
Math.random can produce), a group of two repos yields a city with a single
building position, so len(buildingPositions) = len(repos) fails. -/
theorem cityData_length_counterexample :
    ¬ ∀ c ∈ cityData rand0 [("A", [repoR, repoR])],
        c.buildingPositions.length = c.repos.length := by
  intro h
  unfold cityData cityDataAux at h
  obtain ⟨h1, -⟩ := List.forall_mem_cons.mp h
  simp only [List.length_cons, List.length_nil, zero_add] at h1
  rw [clusterAux_rand0_run 2 _ _ _ 5 (by norm_num) (by norm_num)] at h1
  simp at h1

/-! ## Road Network Builder claims -/

/-- A concrete city at the origin with cluster radius 8. -/
noncomputable def cityA : City := ⟨"A", 0, 0, 8, [], []⟩

/-- A concrete city at (10, 0) with cluster radius 3. -/
noncomputable def cityB : City := ⟨"B", 10, 0, 3, [], []⟩

/-- Amended C4: the road builder emits exactly one segment per city for
every city count, including the degenerate single-city self segment; the
output is empty only for an empty input. -/
theorem roadSegments_length_eq (cities : List City) :
    (roadSegments cities).length = cities.length := by
  unfold roadSegments
  by_cases h : cities.isEmpty
  · rw [if_pos h, List.isEmpty_iff.mp h]
    simp
  · rw [if_neg h]
    simp [List.length_zip, List.length_rotate]

/-- Counterexample to C4: a single city produces one (degenerate) segment,
not an empty list. -/
theorem roadSegments_single_city_counterexample :
    roadSegments [cityA] ≠ [] := by
  unfold roadSegments
  rw [if_neg (by simp)]
  simp [List.rotate]

/-- Amended C5: the degenerate case is not guarded — when two adjacent
cities share a centre, the 0/0 unit-vector division is non-finite (NaN) and
propagates into all four coordinates of the produced segment. -/
theorem mkSegment_degenerate_nan (curr next : City)
    (hx : curr.centerX = next.centerX) (hz : curr.centerZ = next.centerZ) :
    mkSegment curr next = (none, none, none, none) := by
  unfold mkSegment
  rw [← hx, ← hz]
  simp [hypot, odiv, omul, oadd, osub]

/-- Witness for the amended C5. -/
theorem mkSegment_degenerate_nan_witness :
    cityA.centerX = cityA.centerX ∧ cityA.centerZ = cityA.centerZ ∧
    mkSegment cityA cityA = (none, none, none, none) :=
  ⟨rfl, rfl, mkSegment_degenerate_nan cityA cityA rfl rfl⟩

/-- Counterexample to C5: the segment between two cities with the same
centre has all four coordinates non-finite (NaN), proved directly from the
road-segment computation. -/
theorem mkSegment_nan_counterexample :
    mkSegment cityA cityA = (none, none, none, none) := by
  unfold mkSegment
  simp [hypot, odiv, omul, oadd, osub]

theorem sum_sq_pos_of_ne (a b : ℝ) (h : ¬ (a = 0 ∧ b = 0)) :
    0 < a ^ 2 + b ^ 2 := by
  rcases lt_or_eq_of_le (add_nonneg (sq_nonneg a) (sq_nonneg b)) with hlt | heq
  · exact hlt
  · exfalso
    apply h
    constructor
    · exact pow_eq_zero_iff two_ne_zero |>.mp (by nlinarith [sq_nonneg a, sq_nonneg b])
    · exact pow_eq_zero_iff two_ne_zero |>.mp (by nlinarith [sq_nonneg a, sq_nonneg b])

theorem hypot_ne_zero_of_pos {dx dz : ℝ} (hpos : 0 < dx ^ 2 + dz ^ 2) :
    hypot dx dz ≠ 0 := by
  rw [hypot]
  exact ne_of_gt (Real.sqrt_pos.mpr hpos)

theorem hypot_scaled (dx dz t : ℝ) (ht : 0 ≤ t) (hpos : 0 < dx ^ 2 + dz ^ 2) :
    hypot (dx / hypot dx dz * t) (dz / hypot dx dz * t) = t := by
  have hd2 : hypot dx dz ^ 2 = dx ^ 2 + dz ^ 2 := by
    rw [hypot]
    exact Real.sq_sqrt (le_of_lt hpos)
  have hdne : hypot dx dz ≠ 0 := hypot_ne_zero_of_pos hpos
  have key : (dx / hypot dx dz * t) ^ 2 + (dz / hypot dx dz * t) ^ 2 = t ^ 2 := by
    have e1 : (dx / hypot dx dz * t) ^ 2 + (dz / hypot dx dz * t) ^ 2 =
        (dx ^ 2 + dz ^ 2) / hypot dx dz ^ 2 * t ^ 2 := by ring
    rw [e1, ← hd2, div_self (pow_ne_zero 2 hdne), one_mul]
  rw [hypot, key, Real.sqrt_sq ht]

theorem hypot_neg (a b : ℝ) : hypot (-a) (-b) = hypot a b := by
  unfold hypot
  congr 1
  ring

/-- The per-pair segment of the road builder, stated explicitly when the two
centres are distinct: all four coordinates are finite. -/
theorem mkSegment_eq_of_ne (curr next : City)
    (h : hypot (next.centerX - curr.centerX) (next.centerZ - curr.centerZ) ≠ 0) :
    mkSegment curr next =
      (some (curr.centerX + (next.centerX - curr.centerX) /
          hypot (next.centerX - curr.centerX) (next.centerZ - curr.centerZ) *
          (curr.clusterRadius + 2)),
       some (curr.centerZ + (next.centerZ - curr.centerZ) /
          hypot (next.centerX - curr.centerX) (next.centerZ - curr.centerZ) *
          (curr.clusterRadius + 2)),
       some (next.centerX - (next.centerX - curr.centerX) /
          hypot (next.centerX - curr.centerX) (next.centerZ - curr.centerZ) *
          (next.clusterRadius + 2)),
       some (next.centerZ - (next.centerZ - curr.centerZ) /
          hypot (next.centerX - curr.centerX) (next.centerZ - curr.centerZ) *
          (next.clusterRadius + 2))) := by
  unfold mkSegment
  simp [odiv, omul, oadd, osub, h]

/-- Claim C6: for distinct adjacent centres (and nonnegative cluster radii)
the produced segment has finite endpoints, the start at distance
curr.clusterRadius + 2 from curr's centre, the end at distance
next.clusterRadius + 2 from next's centre, both on the line through the two
centres. -/
theorem mkSegment_endpoints_spec (curr next : City)
    (hne : (curr.centerX, curr.centerZ) ≠ (next.centerX, next.centerZ))
    (hr1 : 0 ≤ curr.clusterRadius) (hr2 : 0 ≤ next.clusterRadius) :
    ∃ x1 z1 x2 z2,
      mkSegment curr next = (some x1, some z1, some x2, some z2) ∧
      hypot (x1 - curr.centerX) (z1 - curr.centerZ) = curr.clusterRadius + 2 ∧
      hypot (x2 - next.centerX) (z2 - next.centerZ) = next.clusterRadius + 2 ∧
      (∃ t : ℝ, x1 = curr.centerX + t * (next.centerX - curr.centerX) ∧
                z1 = curr.centerZ + t * (next.centerZ - curr.centerZ)) ∧
      (∃ t : ℝ, x2 = curr.centerX + t * (next.centerX - curr.centerX) ∧
                z2 = curr.centerZ + t * (next.centerZ - curr.centerZ)) := by
  have hne2 : ¬ (next.centerX - curr.centerX = 0 ∧ next.centerZ - curr.centerZ = 0) := by
    rintro ⟨h1, h2⟩
    apply hne
    simp only [Prod.mk.injEq]
    constructor <;> linarith
  have hpos : 0 < (next.centerX - curr.centerX) ^ 2 + (next.centerZ - curr.centerZ) ^ 2 :=
    sum_sq_pos_of_ne _ _ hne2
  have hdne : hypot (next.centerX - curr.centerX) (next.centerZ - curr.centerZ) ≠ 0 :=
    hypot_ne_zero_of_pos hpos
  refine ⟨_, _, _, _, mkSegment_eq_of_ne curr next hdne, ?_, ?_, ?_, ?_⟩
  · simp only [add_sub_cancel_left]
    exact hypot_scaled _ _ _ (by linarith) hpos
  · rw [show next.centerX - (next.centerX - curr.centerX) /
        hypot (next.centerX - curr.centerX) (next.centerZ - curr.centerZ) *
        (next.clusterRadius + 2) - next.centerX =
        -((next.centerX - curr.centerX) /
          hypot (next.centerX - curr.centerX) (next.centerZ - curr.centerZ) *
          (next.clusterRadius + 2)) by ring,
      show next.centerZ - (next.centerZ - curr.centerZ) /
        hypot (next.centerX - curr.centerX) (next.centerZ - curr.centerZ) *
        (next.clusterRadius + 2) - next.centerZ =
        -((next.centerZ - curr.centerZ) /
          hypot (next.centerX - curr.centerX) (next.centerZ - curr.centerZ) *
          (next.clusterRadius + 2)) by ring,
      hypot_neg]
    exact hypot_scaled _ _ _ (by linarith) hpos
  · exact ⟨(curr.clusterRadius + 2) /
      hypot (next.centerX - curr.centerX) (next.centerZ - curr.centerZ),
      by ring, by ring⟩
  · exact ⟨1 - (next.clusterRadius + 2) /
      hypot (next.centerX - curr.centerX) (next.centerZ - curr.centerZ),
      by ring, by ring⟩

/-- Witness for C6 on two concrete cities 10 apart. -/
theorem mkSegment_endpoints_spec_witness :
    ((cityA.centerX, cityA.centerZ) ≠ (cityB.centerX, cityB.centerZ)) ∧
    0 ≤ cityA.clusterRadius ∧ 0 ≤ cityB.clusterRadius ∧
    (∃ x1 z1 x2 z2,
      mkSegment cityA cityB = (some x1, some z1, some x2, some z2) ∧
      hypot (x1 - cityA.centerX) (z1 - cityA.centerZ) = cityA.clusterRadius + 2 ∧
      hypot (x2 - cityB.centerX) (z2 - cityB.centerZ) = cityB.clusterRadius + 2 ∧
      (∃ t : ℝ, x1 = cityA.centerX + t * (cityB.centerX - cityA.centerX) ∧
                z1 = cityA.centerZ + t * (cityB.centerZ - cityA.centerZ)) ∧
      (∃ t : ℝ, x2 = cityA.centerX + t * (cityB.centerX - cityA.centerX) ∧
                z2 = cityA.centerZ + t * (cityB.centerZ - cityA.centerZ))) :=
  ⟨by norm_num [cityA, cityB, Prod.ext_iff],
   by norm_num [cityA], by norm_num [cityB],
   mkSegment_endpoints_spec cityA cityB
     (by norm_num [cityA, cityB, Prod.ext_iff])
     (by norm_num [cityA]) (by norm_num [cityB])⟩

/-! ## Obstacle Deriver claims -/

theorem treePoints_length (rand : ℕ → ℝ) (idx : ℕ) (city : City) :
    (treePoints rand idx city).length = city.buildingPositions.length := by
  simp [treePoints]

theorem obstaclesAux_length (rand : ℕ → ℝ) (cities : List City) :
    ∀ idx, (obstaclesAux rand cities idx).length =
      2 * (cities.map fun c => c.buildingPositions.length).sum := by
  induction cities with
  | nil => intro idx; simp [obstaclesAux]
  | cons c rest ih =>
    intro idx
    simp [obstaclesAux, treePoints_length, ih]
    ring

/-- Amended C9: the obstacle list always has exactly twice as many points as
there are building positions in total (one building obstacle plus one tree
obstacle per building position); in particular, 8 cities that each retain 3
building positions give 48 obstacles. -/
theorem obstacleCenters_count_spec (rand : ℕ → ℝ) (cities : List City) :
    (obstacleCenters rand cities).length =
      2 * (cities.map fun c => c.buildingPositions.length).sum ∧
    ((∀ c ∈ cities, c.buildingPositions.length = 3) → cities.length = 8 →
      (obstacleCenters rand cities).length = 48) := by
  have hlen : (obstacleCenters rand cities).length =
      2 * (cities.map fun c => c.buildingPositions.length).sum :=
    obstaclesAux_length rand cities 0
  refine ⟨hlen, fun h3 h8 => ?_⟩
  have hrep : (cities.map fun c => c.buildingPositions.length) = List.replicate 8 3 := by
    rw [List.eq_replicate_iff]
    refine ⟨by simpa using h8, ?_⟩
    intro b hb
    obtain ⟨c, hc, rfl⟩ := List.mem_map.mp hb
    exact h3 c hc
  rw [hlen, hrep]
  simp [List.sum_replicate]

/-- A concrete city with three building positions. -/
noncomputable def cityW : City := ⟨"L", 0, 0, 10, [], [(0, 0), (1, 1), (2, 2)]⟩

/-- Witness for the amended C9: 8 cities with 3 building positions each. -/
theorem obstacleCenters_count_spec_witness :
    (∀ c ∈ List.replicate 8 cityW, c.buildingPositions.length = 3) ∧
    (List.replicate 8 cityW).length = 8 ∧
    (obstacleCenters rand0 (List.replicate 8 cityW)).length = 48 := by
  have h3 : ∀ c ∈ List.replicate 8 cityW, c.buildingPositions.length = 3 := by
    intro c hc
    rw [List.eq_of_mem_replicate hc]
    simp [cityW]
  exact ⟨h3, by simp, (obstacleCenters_count_spec rand0 _).2 h3 (by simp)⟩

theorem cityDataAux_rand0_bp (groups : List (String × List Repo))
    (hall : ∀ g ∈ groups, 2 ≤ g.2.length) :
    ∀ i idx, ∀ c ∈ cityDataAux rand0 groups i idx,
      c.buildingPositions.length = 1 := by
  induction groups with
  | nil => intro i idx c hc; simp [cityDataAux] at hc
  | cons g rest ih =>
    intro i idx c hc
    obtain ⟨lang, repos⟩ := g
    simp only [cityDataAux] at hc
    rcases List.mem_cons.mp hc with rfl | htail
    · have h2 : 2 ≤ repos.length := hall (lang, repos) (List.mem_cons_self _ _)
      show (clusterAux rand0 repos.length _ _ _ 5 (repos.length * 50) (idx + 3) []).1.length = 1
      rw [clusterAux_rand0_run repos.length _ _ _ 5 (by norm_num) h2]
      simp
    · exact ih (fun g hg => hall g (List.mem_cons_of_mem _ hg)) _ _ c htail

/-- A language group with three repositories. -/
def threeRepos : List Repo := [repoR, repoR, repoR]

/-- Eight language groups of three repositories each. -/
def groups8 : List (String × List Repo) :=
  [("L1", threeRepos), ("L2", threeRepos), ("L3", threeRepos),
   ("L4", threeRepos), ("L5", threeRepos), ("L6", threeRepos),
   ("L7", threeRepos), ("L8", threeRepos)]

/-- Counterexample to C9: on the constant-zero random stream, 8 cities of 3
repos each keep only one building position per city, so the obstacle count
is 16, not the claimed 48. -/
theorem obstacleCenters_48_counterexample :
    groups8.length = 8 ∧ (∀ g ∈ groups8, g.2.length = 3) ∧
    (obstacleCenters rand0 (cityData rand0 groups8)).length ≠ 48 := by
  have hbp : ∀ c ∈ cityData rand0 groups8, c.buildingPositions.length = 1 := by
    intro c hc
    exact cityDataAux_rand0_bp groups8
      (by intro g hg; fin_cases hg <;> simp [threeRepos]) 0 0 c hc
  have hnum : (obstacleCenters rand0 (cityData rand0 groups8)).length = 16 := by
    rw [show obstacleCenters rand0 (cityData rand0 groups8) =
        obstaclesAux rand0 (cityData rand0 groups8) 0 from rfl,
      obstaclesAux_length rand0 (cityData rand0 groups8) 0]
    have hrep : ((cityData rand0 groups8).map fun c => c.buildingPositions.length) =
        List.replicate 8 1 := by
      rw [List.eq_replicate_iff]
      refine ⟨?_, ?_⟩
      · simpa [cityData, groups8] using cityDataAux_length rand0 groups8 0 0
      · intro b hb
        obtain ⟨c, hc, rfl⟩ := List.mem_map.mp hb
        exact hbp c hc
    rw [hrep]
    simp [List.sum_replicate]
  refine ⟨by simp [groups8], by intro g hg; fin_cases hg <;> simp [threeRepos], ?_⟩
  rw [hnum]
  norm_num

end Portfolio
